import Mathlib

/-!
Verification of the DMX fire controller core (`dmx_fire_controller.py`).

The Python source is shallowly embedded: byte-level state is modelled with
`Nat`/`Int` and lists, real-number arithmetic with a generic linear ordered
field `K` (instantiated at `ℚ` for executable witnesses and at `ℝ` where the
transcendental sine is needed).  `math.sin` is passed as an explicit function
parameter `sinf`, and the per-pixel pseudo random draws are supplied as an
explicit `Draws` record (each `random.uniform(a,b)` is `a + (b-a)·u` with a
unit draw `u`, each `randint` an integer draw), mirroring how CPython's
`random` module produces them.  Python's `int(·)` conversion (truncation
toward zero) is `pyInt`.
-/

/-- Python `int(x)`: truncation toward zero. -/
def pyInt {K : Type*} [LinearOrderedField K] [FloorRing K] (x : K) : ℤ :=
  if 0 ≤ x then ⌊x⌋ else ⌈x⌉

-- ===========================================================================
-- ENTTEC DMX USB Pro input handler (`EnttecDMXProInput`)
-- ===========================================================================

/-- Mutable state of `EnttecDMXProInput` relevant to packet processing. -/
structure DMXState where
  dmx_data : List ℕ
  packet_count : ℕ
  last_status : ℕ
  deriving Repr, DecidableEq

/-- Initial state set in `EnttecDMXProInput.__init__`: `[0]*512`, count 0. -/
def DMXState.init : DMXState :=
  { dmx_data := List.replicate 512 0, packet_count := 0, last_status := 0 }

/-- The loop `for i, value in enumerate(channels): if i < 512: dmx_data[i] = value`,
with `i` the running enumeration index. -/
def writeChannels : List ℕ → ℕ → List ℕ → List ℕ
  | data, _, [] => data
  | data, i, v :: vs => writeChannels (if i < 512 then data.set i v else data) (i + 1) vs

/-- `EnttecDMXProInput._process_dmx_packet` (the `time.time()` bookkeeping is
omitted: wall-clock reads are not part of the decoded data).  Returns the new
state together with the boolean result. -/
def process_dmx_packet (st : DMXState) (payload : List ℕ) : DMXState × Bool :=
  match payload with
  | [] => (st, false)
  | status :: dmx_with_start =>
    let st1 := { st with last_status := status }
    match dmx_with_start with
    | [] => (st1, false)
    | _start_code :: channels =>
      ({ st1 with
          dmx_data := writeChannels st1.dmx_data 0 channels
          packet_count := st1.packet_count + 1 }, true)

/-- `EnttecDMXProInput.get_channel` (1-indexed, 0 outside `[1,512]`). -/
def get_channel (st : DMXState) (channel : ℕ) : ℕ :=
  if 1 ≤ channel ∧ channel ≤ 512 then st.dmx_data.getD (channel - 1) 0 else 0

/-- The start-delimiter scan of `_read_message`: up to `n` single-byte reads
looking for `0x7E`; returns the remaining stream after the delimiter. -/
def findStart : ℕ → List ℕ → Option (List ℕ)
  | 0, _ => none
  | _ + 1, [] => none
  | n + 1, b :: rest => if b = 0x7E then some rest else findStart n rest

/-- `EnttecDMXProInput._read_message` on a byte stream: start scan (5 attempts),
label byte, little-endian 16-bit length, exactly `length` payload bytes; the
end delimiter is read but never checked (tolerant framing). -/
def read_message (input : List ℕ) : Option (ℕ × List ℕ) :=
  match findStart 5 input with
  | none => none
  | some rest =>
    match rest with
    | label :: b0 :: b1 :: rest3 =>
      let len := b0 + 256 * b1
      if rest3.length < len then none else some (label, rest3.take len)
    | _ => none

-- ===========================================================================
-- Fire pixel synthesizer (`SmoothFirePixel`)
-- ===========================================================================

/-- One frame's worth of pseudo-random material for one pixel, as drawn by
`self.rng`.  `random.uniform(a,b)` is modelled as `a + (b-a)·u` with the unit
draw `u` recorded here; `randint`/`gauss` values are recorded directly. -/
structure Draws (K : Type*) where
  flashRoll : K      -- rng.random() deciding the 1% special flash
  whichFlash : K     -- rng.random() deciding white-hot vs blue flame
  colorIntensityU : K -- unit draw of rng.uniform(0.6, 1.0)
  redDraw : ℤ        -- rng.randint(245, 255)
  greenGauss : K     -- rng.gauss(0, 25)
  blueDraw : ℤ       -- rng.randint(-5, 10)
  transType : K      -- rng.random() choosing the duration bucket
  durU : K           -- unit draw of rng.uniform(*base_range)
  flashDurU : K      -- unit draw of rng.uniform(0.1, 0.25)
  gustRoll : K       -- rng.random() for the gust trigger
  gustDurU : K       -- unit draw of rng.uniform(0.05, 0.4)
  gustTroughU : K    -- unit draw of rng.uniform(0.1, 0.8)

/-- `random.uniform(a, b) = a + (b - a) * random()`. -/
def pyUniform {K : Type*} [LinearOrderedField K] (a b u : K) : K := a + (b - a) * u

/-- Mutable per-pixel state of `SmoothFirePixel`. -/
structure PixelState (K : Type*) where
  flicker_intensity : K
  color_shift : K
  sporadic_flicker : K
  current_color : ℤ × ℤ × ℤ
  target_color : ℤ × ℤ × ℤ
  transition_start_time : K
  transition_duration : K
  base_intensity : K
  intensity_phase : K
  intensity_speed : K
  wind_gust_active : Bool
  wind_gust_intensity : K
  wind_gust_start_time : K
  wind_gust_duration : K

variable {K : Type*} [LinearOrderedField K] [FloorRing K]

/-- `SmoothFirePixel._generate_fire_color`. -/
def generate_fire_color (d : Draws K) (color_shift : K) : ℤ × ℤ × ℤ :=
  if d.flashRoll < 1 / 100 then
    if d.whichFlash < 67 / 100 then (255, 255, 200) else (100, 150, 255)
  else
    let intensity : K := pyUniform (6 / 10) 1 d.colorIntensityU
    let red : ℤ := d.redDraw
    let green_variation : K := d.greenGauss
    let base_green : K := 127 + green_variation
    let shift_amount : K := (color_shift - 1 / 2) * 2
    let green_shift : K := -shift_amount * 60
    let green0 : K := base_green + green_shift
    let green1 : K := max 50 (min 200 green0)
    let green : ℤ := pyInt (green1 * intensity)
    let blue_base : ℤ := 15 + d.blueDraw
    let blue : ℤ := max 0 (min 30 blue_base)
    (red, green, blue)

/-- `SmoothFirePixel.lerp_color`: clamp `t` into `[0,1]`, then per-channel
`int(c1 + (c2 - c1) * t)`. -/
def lerp_color (c1 c2 : ℤ × ℤ × ℤ) (t : K) : ℤ × ℤ × ℤ :=
  let tc := max 0 (min 1 t)
  (pyInt ((c1.1 : K) + ((c2.1 - c1.1 : ℤ) : K) * tc),
   pyInt ((c1.2.1 : K) + ((c2.2.1 - c1.2.1 : ℤ) : K) * tc),
   pyInt ((c1.2.2 : K) + ((c2.2.2 - c1.2.2 : ℤ) : K) * tc))

/-- The wind-gust intensity multiplier computed inside `SmoothFirePixel.update`
for an active gust with trough `v`, duration `dur` and elapsed time `e`:
a triangle envelope while `e < dur`, and `1.0` once the gust is complete. -/
def windMultiplier (v dur e : K) : K :=
  if e < dur then
    let p := e / dur
    if p < 1 / 2 then 1 - p * 2 * (1 - v)
    else v + (p - 1 / 2) * 2 * (1 - v)
  else 1

/-- Channel-wise scaling with Python int truncation, as in the final
`r = int(r * total_intensity)` lines of `update` (and the bank/master
scaling in `FlameBank.update` / `_render_frame`). -/
def scaleColor (c : ℤ × ℤ × ℤ) (m : K) : ℤ × ℤ × ℤ :=
  (pyInt ((c.1 : K) * m), pyInt ((c.2.1 : K) * m), pyInt ((c.2.2 : K) * m))

/-- The color-transition expiry block at the top of `SmoothFirePixel.update`:
when the elapsed time has reached the duration, promote the target color,
draw a fresh target and duration (flash colors get the short 0.1–0.25 s
range; otherwise one of three buckets scaled by `2 - flicker_intensity`). -/
def transition_step (d : Draws K) (st : PixelState K) (current_time : K) : PixelState K :=
  if current_time - st.transition_start_time ≥ st.transition_duration then
    let newTarget := generate_fire_color d st.color_shift
    let is_white_flash :=
      newTarget.1 = 255 ∧ newTarget.2.1 = 255 ∧ newTarget.2.2 = 200
    let is_blue_flash :=
      newTarget.1 = 100 ∧ newTarget.2.1 = 150 ∧ newTarget.2.2 = 255
    let newDuration : K :=
      if is_white_flash ∨ is_blue_flash then
        pyUniform (1 / 10) (25 / 100) d.flashDurU
      else
        let base_range : K × K :=
          if d.transType < 3 / 10 then (1 / 20, 1 / 5)
          else if d.transType < 7 / 10 then (3 / 10, 8 / 10)
          else (1, 5 / 2)
        let duration := pyUniform base_range.1 base_range.2 d.durU
        let speed_multiplier := 2 - st.flicker_intensity
        duration * speed_multiplier
    { st with
        current_color := st.target_color
        target_color := newTarget
        transition_start_time := current_time
        transition_duration := newDuration }
  else st

/-- The wind-gust block of `SmoothFirePixel.update`: possibly trigger a new
gust, then compute the intensity multiplier of the active gust (1.0 when the
feature is off, no gust is active, or the gust just completed). -/
def gust_step (d : Draws K) (st2 : PixelState K) (current_time : K) : PixelState K × K :=
  if st2.sporadic_flicker > (1 : K) / 100 then
    let st2a :=
      if ¬ st2.wind_gust_active then
        if d.gustRoll < st2.sporadic_flicker * (5 / 100) then
          { st2 with
              wind_gust_active := true
              wind_gust_start_time := current_time
              wind_gust_duration := pyUniform (1 / 20) (4 / 10) d.gustDurU
              wind_gust_intensity := pyUniform (1 / 10) (8 / 10) d.gustTroughU }
        else st2
      else st2
    if st2a.wind_gust_active then
      let gust_elapsed := current_time - st2a.wind_gust_start_time
      if gust_elapsed < st2a.wind_gust_duration then
        (st2a, windMultiplier st2a.wind_gust_intensity st2a.wind_gust_duration gust_elapsed)
      else ({ st2a with wind_gust_active := false }, 1)
    else (st2a, 1)
  else (st2, 1)

/-- `SmoothFirePixel.update`: transition expiry and redraw, smoothstep
interpolation, per-call phase advance, the wind-gust block, and the final
scaling, in source order.  `sinf` stands for `math.sin`; `d` supplies this
calls random draws. -/
def SmoothFirePixel.update (sinf : K → K) (d : Draws K) (st : PixelState K)
    (current_time : K) : PixelState K × (ℤ × ℤ × ℤ) :=
  let elapsed := current_time - st.transition_start_time
  let st1 := transition_step d st current_time
  let t0 : K := if st1.transition_duration > 0 then elapsed / st1.transition_duration else 1
  let t1 : K := t0 * t0 * (3 - 2 * t0)
  let rgb := lerp_color st1.current_color st1.target_color t1
  let newPhase := st1.intensity_phase + st1.intensity_speed * (1 / 100)
  let intensity_variation := (sinf newPhase + 1) / 2
  let total0 := st1.base_intensity * (6 / 10 + 4 / 10 * intensity_variation)
  let st2 := { st1 with intensity_phase := newPhase }
  let gr := gust_step d st2 current_time
  let total := total0 * gr.2
  (gr.1, scaleColor rgb total)

-- ===========================================================================
-- Flame bank (`FlameBank`) and master-intensity smoothing
-- ===========================================================================

/-- Mutable state of `FlameBank`.  Pixels are kept with their indices
(`fire_pixels` and `pixel_indices` in the source are aligned). -/
structure BankState (K : Type*) where
  intensity : K
  target_intensity : K
  flicker_intensity : K
  color_shift : K
  sporadic_flicker : K
  pixel_indices : List ℕ
  pixels : List (ℕ × PixelState K)

/-- `FlameBank.set_intensity`: normalize, 2% hysteresis on the target,
then `intensity += (target - intensity) * 0.3`. -/
def set_intensity (b : BankState K) (dmx_value : ℕ) : BankState K :=
  let target : K := (dmx_value : K) / 255
  let b1 := if |target - b.target_intensity| > 2 / 100
            then { b with target_intensity := target } else b
  { b1 with intensity := b1.intensity + (b1.target_intensity - b1.intensity) * (3 / 10) }

/-- `FlameBank.update`: when `intensity ≤ 0` every owned index maps to black
without pixel synthesis; otherwise each pixel gets the bank's global
parameters, is updated, and its output is scaled by the bank intensity.
`draws` supplies each pixel's random material, keyed by pixel index. -/
def FlameBank.update (sinf : K → K) (draws : ℕ → Draws K) (b : BankState K)
    (current_time : K) : BankState K × List (ℕ × (ℤ × ℤ × ℤ)) :=
  if b.intensity ≤ 0 then
    (b, b.pixel_indices.map fun i => (i, ((0 : ℤ), (0 : ℤ), (0 : ℤ))))
  else
    let results := b.pixels.map fun ip =>
      let ps := { ip.2 with
                    flicker_intensity := b.flicker_intensity
                    color_shift := b.color_shift
                    sporadic_flicker := b.sporadic_flicker }
      let r := SmoothFirePixel.update sinf (draws ip.1) ps current_time
      ((ip.1, r.1),
       (ip.1, (pyInt ((r.2.1 : K) * b.intensity),
               pyInt ((r.2.2.1 : K) * b.intensity),
               pyInt ((r.2.2.2 : K) * b.intensity))))
    ({ b with pixels := results.map Prod.fst }, results.map Prod.snd)

/-- `FlameBank.__init__`: intensity and target start at `0.0`. -/
def BankState.init (pixel_indices : List ℕ) (pixels : List (ℕ × PixelState K)) :
    BankState K :=
  { intensity := 0, target_intensity := 0, flicker_intensity := 1 / 2,
    color_shift := 0, sporadic_flicker := 0,
    pixel_indices := pixel_indices, pixels := pixels }

/-- The controller's master-intensity fields (`DMXFireController`). -/
structure MasterState (K : Type*) where
  master_intensity : K
  target_master_intensity : K

/-- The master-intensity portion of `DMXFireController._update_from_dmx`:
same hysteresis-plus-smoothing law as `FlameBank.set_intensity`. -/
def update_master (m : MasterState K) (dmx_value : ℕ) : MasterState K :=
  let target : K := (dmx_value : K) / 255
  let m1 := if |target - m.target_master_intensity| > 2 / 100
            then { m with target_master_intensity := target } else m
  { m1 with master_intensity :=
      m1.master_intensity + (m1.target_master_intensity - m1.master_intensity) * (3 / 10) }

/-- `DMXFireController.__init__`: master intensity starts at `1.0`. -/
def MasterState.init : MasterState K :=
  { master_intensity := 1, target_master_intensity := 1 }

/-- The isolated smoothing step `current += (target - current) * 0.3`. -/
def smoothStep (current target : K) : K := current + (target - current) * (3 / 10)

/-- `n` frames of the smoothing step against a fixed target. -/
def smoothIter : ℕ → K → K → K
  | 0, current, _ => current
  | n + 1, current, target => smoothIter n (smoothStep current target) target

-- ===========================================================================
-- Output topology (`DMXFireController.__init__` / `_render_frame`)
-- ===========================================================================

/-- `self.leds_per_universe = 512 // 3`. -/
def leds_per_universe : ℕ := 512 / 3

/-- `universe_idx = pixel_idx // self.leds_per_universe`. -/
def universeIdx (pixel_idx : ℕ) : ℕ := pixel_idx / leds_per_universe

/-- `channel_offset = (pixel_idx % self.leds_per_universe) * 3`. -/
def channelOffset (pixel_idx : ℕ) : ℕ := (pixel_idx % leds_per_universe) * 3

/-- The 13 bank sizes: 7×125 (WLED ONE) then 3×125 and 3×150 (WLED TWO). -/
def bank_sizes : List ℕ :=
  List.replicate 7 125 ++ (List.replicate 3 125 ++ List.replicate 3 150)

/-- The bank-construction loop: running pixel cursor, with the jump to pixel
1020 when `bank_id == 7` (the gap between the two WLED boxes). -/
def mkBankRanges : ℕ → ℕ → List ℕ → List (ℕ × ℕ)
  | _, _, [] => []
  | bank_id, current_pixel, size :: rest =>
    let start := if bank_id = 7 then 1020 else current_pixel
    (start, size) :: mkBankRanges (bank_id + 1) (start + size) rest

/-- The `(start_idx, bank_size)` ranges of the 13 flame banks. -/
def bankRanges : List (ℕ × ℕ) := mkBankRanges 0 0 bank_sizes

/-- `list(range(start, start + size, 1))`: the pixel indices of one bank at
spacing 1 (the default `PIXEL_SPACING`). -/
def bankPixelIndices (start size : ℕ) : List ℕ :=
  (List.range size).map fun k => start + k

/-- Every pixel index owned by some flame bank (spacing 1). -/
def allAssignedPixels : List ℕ :=
  (bankRanges.map fun r => bankPixelIndices r.1 r.2).flatten

/-- One `universe_data` write of `_render_frame`: three channel bytes at
`channel_offset` of universe `us + universeIdx p`. -/
def setPixelInBuf (us : ℕ) (buf : ℕ → ℕ → ℤ) (p : ℕ) (rgb : ℤ × ℤ × ℤ) :
    ℕ → ℕ → ℤ :=
  fun u c =>
    if u = us + universeIdx p then
      if c = channelOffset p then rgb.1
      else if c = channelOffset p + 1 then rgb.2.1
      else if c = channelOffset p + 2 then rgb.2.2
      else buf u c
    else buf u c

/-- `_render_frame`'s buffer pass: clear every universe buffer to zero, then
perform each pixel write in order. -/
def render_frame (us : ℕ) (writes : List (ℕ × (ℤ × ℤ × ℤ))) : ℕ → ℕ → ℤ :=
  writes.foldl (fun buf pw => setPixelInBuf us buf pw.1 pw.2) (fun _ _ => 0)


/-- The smoothstep interpolation progress computed inside `update`:
`t = elapsed / duration` (1.0 for non-positive duration), then
`t * t * (3 - 2t)`. -/
def smoothProg (st : PixelState K) (now : K) : K :=
  let elapsed := now - st.transition_start_time
  let t0 := if st.transition_duration > 0 then elapsed / st.transition_duration else 1
  t0 * t0 * (3 - 2 * t0)

/-- The waxing/waning factor of `update` at the advanced phase:
`base_intensity * (0.6 + 0.4 * (sin(phase) + 1) / 2)`. -/
def oscFactor (sinf : K → K) (st : PixelState K) : K :=
  st.base_intensity
    * (6 / 10 + 4 / 10 * ((sinf (st.intensity_phase + st.intensity_speed * (1 / 100)) + 1) / 2))

/-- Shift every stored timestamp of a pixel state by the same offset
(used to state that a cycle depends on elapsed time only). -/
def shiftTimes (st : PixelState K) (dlt : K) : PixelState K :=
  { st with transition_start_time := st.transition_start_time + dlt,
            wind_gust_start_time := st.wind_gust_start_time + dlt }

/-- A pixel state with constant color (255,180,20), transition start 0 and
duration 1, base intensity 0.8, oscillation speed 1, phase φ, gusts disabled
— a state reachable once both drawn colors agree and used to evaluate
`update` concretely. -/
def pxCp (K : Type*) [LinearOrderedField K] (phi : K) : PixelState K :=
  { flicker_intensity := 1 / 2, color_shift := 0, sporadic_flicker := 0,
    current_color := (255, 180, 20), target_color := (255, 180, 20),
    transition_start_time := 0, transition_duration := 1,
    base_intensity := 8 / 10, intensity_phase := phi, intensity_speed := 1,
    wind_gust_active := false, wind_gust_intensity := 1,
    wind_gust_start_time := 0, wind_gust_duration := 0 }

/-- All three channels are integers in [0, 255]. -/
def colorInRange (c : ℤ × ℤ × ℤ) : Prop :=
  0 ≤ c.1 ∧ c.1 ≤ 255 ∧ 0 ≤ c.2.1 ∧ c.2.1 ≤ 255 ∧ 0 ≤ c.2.2 ∧ c.2.2 ≤ 255

/-- The defining property of `math.sin` used here: values lie in [-1, 1]. -/
def SinBound (sinf : K → K) : Prop := ∀ x, -1 ≤ sinf x ∧ sinf x ≤ 1


/-- An all-zero draw record, for instantiating the random oracle at states
whose evaluation consumes no randomness. -/
def zeroDraws (K : Type*) [LinearOrderedField K] : Draws K :=
  { flashRoll := 0, whichFlash := 0, colorIntensityU := 0, redDraw := 0, greenGauss := 0,
    blueDraw := 0, transType := 0, durU := 0, flashDurU := 0, gustRoll := 0,
    gustDurU := 0, gustTroughU := 0 }

/-- The bank state reached from `FlameBank.__init__` by a sequence of
`set_intensity` calls. -/
def bankRun (K : Type*) [LinearOrderedField K] (calls : List ℕ) : BankState K :=
  calls.foldl set_intensity (BankState.init [] [])

/-- The master-intensity state reached from the controller's initial values
by a sequence of `_update_from_dmx` master updates. -/
def masterRun (K : Type*) [LinearOrderedField K] (calls : List ℕ) : MasterState K :=
  calls.foldl update_master MasterState.init


-- ===========================================================================
-- List helper lemmas
-- ===========================================================================

lemma getD_set_ne {α : Type*} (l : List α) (a dflt : α) :
    ∀ {i j : ℕ}, i ≠ j → (l.set i a).getD j dflt = l.getD j dflt := by
  induction l with
  | nil => intro i j _; simp
  | cons x xs ih =>
    intro i j h
    cases i with
    | zero =>
      cases j with
      | zero => exact absurd rfl h
      | succ j => simp [List.set]
    | succ i =>
      cases j with
      | zero => simp [List.set]
      | succ j =>
        simp only [List.set, List.getD_cons_succ]
        exact ih (fun hh => h (by omega))

lemma getD_set_self {α : Type*} (l : List α) (a dflt : α) :
    ∀ {i : ℕ}, i < l.length → (l.set i a).getD i dflt = a := by
  induction l with
  | nil => intro i h; simp at h
  | cons x xs ih =>
    intro i h
    cases i with
    | zero => simp [List.set]
    | succ i =>
      simp only [List.set, List.getD_cons_succ]
      exact ih (by simpa using h)

lemma writeChannels_length (vs : List ℕ) :
    ∀ (data : List ℕ) (i : ℕ), (writeChannels data i vs).length = data.length := by
  induction vs with
  | nil => intro data i; rfl
  | cons v tail ih =>
    intro data i
    simp only [writeChannels]
    rw [ih]
    split <;> simp

lemma writeChannels_getD_below (vs : List ℕ) :
    ∀ (data : List ℕ) (i j : ℕ), j < i →
      (writeChannels data i vs).getD j 0 = data.getD j 0 := by
  induction vs with
  | nil => intro data i j _; rfl
  | cons v tail ih =>
    intro data i j hj
    simp only [writeChannels]
    rw [ih _ _ _ (by omega)]
    split
    · exact getD_set_ne data v 0 (by omega)
    · rfl

lemma writeChannels_getD_at (vs : List ℕ) :
    ∀ (data : List ℕ) (i j : ℕ), data.length = 512 → i ≤ j → j < i + vs.length →
      j < 512 → (writeChannels data i vs).getD j 0 = vs.getD (j - i) 0 := by
  induction vs with
  | nil =>
    intro data i j _ h1 h2 _
    simp only [List.length_nil, Nat.add_zero] at h2
    omega
  | cons v tail ih =>
    intro data i j hlen h1 h2 h3
    simp only [writeChannels]
    by_cases hij : j = i
    · subst hij
      rw [if_pos (by omega), writeChannels_getD_below _ _ _ _ (by omega),
        getD_set_self data v 0 (by omega)]
      simp
    · have hi512 : i < 512 := by omega
      rw [if_pos hi512, ih _ (i + 1) j (by simp [hlen]) (by omega)
        (by simp at h2 ⊢; omega) h3]
      have : j - i = (j - (i + 1)) + 1 := by omega
      rw [this]
      simp

-- ===========================================================================
-- C1: received-DMX packet processing and channel lookup
-- ===========================================================================

set_option maxRecDepth 8192 in
/-- C1: processing a well-formed received-DMX payload (status byte, start
code, then N channel bytes) stores channel byte j at array position j
(channels beyond 512 dropped, array length fixed at 512), increments the
packet count by exactly one, makes `get_channel (j+1)` return the stored byte
for j below min(N,512), and `get_channel` yields 0 outside [1,512]; moreover
the framed bytes 7E 05 04 00 00 00 10 20 E7 decode to a label-5 message whose
processing sets channels 1 and 2 to 0x10 and 0x20 with one packet counted. -/
theorem dmx_packet_decode_correct (st : DMXState) (hlen : st.dmx_data.length = 512)
    (status sc : ℕ) (channels : List ℕ) :
    ((process_dmx_packet st (status :: sc :: channels)).1.packet_count
        = st.packet_count + 1) ∧
    ((process_dmx_packet st (status :: sc :: channels)).1.dmx_data.length = 512) ∧
    (∀ j, j < channels.length → j < 512 →
      get_channel (process_dmx_packet st (status :: sc :: channels)).1 (j + 1)
        = channels.getD j 0) ∧
    (∀ i, i = 0 ∨ 512 < i →
      get_channel (process_dmx_packet st (status :: sc :: channels)).1 i = 0) ∧
    (read_message [0x7E, 0x05, 0x04, 0x00, 0x00, 0x00, 0x10, 0x20, 0xE7]
        = some (0x05, [0x00, 0x00, 0x10, 0x20])) ∧
    (get_channel (process_dmx_packet DMXState.init [0, 0, 0x10, 0x20]).1 1 = 0x10 ∧
     get_channel (process_dmx_packet DMXState.init [0, 0, 0x10, 0x20]).1 2 = 0x20 ∧
     (process_dmx_packet DMXState.init [0, 0, 0x10, 0x20]).1.packet_count = 1) := by
  refine ⟨rfl, ?_, ?_, ?_, by decide, by decide, by decide, rfl⟩
  · simp only [process_dmx_packet]
    rw [writeChannels_length]
    exact hlen
  · intro j hj h512
    simp only [process_dmx_packet, get_channel]
    rw [if_pos (by omega)]
    simpa using writeChannels_getD_at channels st.dmx_data 0 j hlen (by omega)
      (by omega) h512
  · intro i hi
    simp only [get_channel]
    rw [if_neg (by omega)]

set_option maxRecDepth 8192 in
/-- Witness for C1 at a concrete state and payload. -/
theorem dmx_packet_decode_correct_witness :
    DMXState.init.dmx_data.length = 512 ∧
    (∀ j, j < [7, 9].length → j < 512 →
      get_channel (process_dmx_packet DMXState.init [0, 0, 7, 9]).1 (j + 1)
        = [7, 9].getD j 0) := by
  have h := dmx_packet_decode_correct DMXState.init (by decide) 0 0 [7, 9]
  exact ⟨by decide, h.2.2.1⟩

-- ===========================================================================
-- C4: hysteresis and smoothing law of set_intensity
-- ===========================================================================

/-- C4: `set_intensity` leaves the stored target unchanged when the
normalized input is within 0.02 of it, sets it to exactly raw/255 when the
difference exceeds 0.02, and in both cases moves `intensity` toward the
(possibly updated) target by the factor 0.3. -/
theorem set_intensity_hysteresis_law {K : Type*} [LinearOrderedField K]
    (b : BankState K) (r : ℕ) :
    (|(r : K) / 255 - b.target_intensity| ≤ 2 / 100 →
      (set_intensity b r).target_intensity = b.target_intensity) ∧
    (2 / 100 < |(r : K) / 255 - b.target_intensity| →
      (set_intensity b r).target_intensity = (r : K) / 255) ∧
    (set_intensity b r).intensity
      = b.intensity + ((set_intensity b r).target_intensity - b.intensity) * (3 / 10) := by
  by_cases h : |(r : K) / 255 - b.target_intensity| > 2 / 100
  · refine ⟨fun hle => absurd h (not_lt.mpr hle), fun _ => ?_, ?_⟩
    · simp [set_intensity, if_pos h]
    · simp [set_intensity, if_pos h]
  · refine ⟨fun _ => ?_, fun hlt => absurd hlt h, ?_⟩
    · simp [set_intensity, if_neg h]
    · simp [set_intensity, if_neg h]

/-- Witness for C4: raw byte 255 against target 0 updates the target to 1. -/
theorem set_intensity_hysteresis_law_witness :
    ((2 : ℚ) / 100 <
        |(255 : ℚ) / 255 - (BankState.init [] ([] : List (ℕ × PixelState ℚ))).target_intensity|) ∧
    (set_intensity (BankState.init [] ([] : List (ℕ × PixelState ℚ))) 255).target_intensity
      = (255 : ℚ) / 255 := by
  refine ⟨by norm_num [BankState.init], ?_⟩
  exact (set_intensity_hysteresis_law (BankState.init [] []) 255).2.1
    (by norm_num [BankState.init])

-- ===========================================================================
-- C6: injectivity of the pixel → (universe, channel-offset) map
-- ===========================================================================

/-- C6: the output-topology map pixel ↦ (pixel / 170, (pixel % 170) × 3)
is injective: distinct pixel indices never share a channel offset within the
same universe. -/
theorem universe_mapping_injective (p q : ℕ)
    (hu : universeIdx p = universeIdx q) (hc : channelOffset p = channelOffset q) :
    p = q := by
  simp only [universeIdx, channelOffset, leds_per_universe] at hu hc
  norm_num at hu hc
  omega

/-- Witness for C6 at pixel indices 341 and 341. -/
theorem universe_mapping_injective_witness :
    universeIdx 341 = universeIdx 341 ∧ channelOffset 341 = channelOffset 341 ∧
      (341 : ℕ) = 341 :=
  ⟨rfl, rfl, universe_mapping_injective 341 341 rfl rfl⟩

-- ===========================================================================
-- C9: 14-iteration convergence of the smoothing step
-- ===========================================================================

lemma smoothIter_err {K : Type*} [LinearOrderedField K] (n : ℕ) :
    ∀ c t : K, |smoothIter n c t - t| = (7 / 10) ^ n * |c - t| := by
  induction n with
  | zero => intro c t; simp [smoothIter]
  | succ n ih =>
    intro c t
    have hstep : |smoothStep c t - t| = (7 / 10) * |c - t| := by
      have : smoothStep c t - t = (7 / 10) * (c - t) := by
        simp only [smoothStep]; ring
      rw [this, abs_mul, abs_of_pos (by norm_num : (0 : K) < 7 / 10)]
    calc |smoothIter (n + 1) c t - t| = |smoothIter n (smoothStep c t) t - t| := rfl
      _ = (7 / 10) ^ n * |smoothStep c t - t| := ih _ _
      _ = (7 / 10) ^ n * ((7 / 10) * |c - t|) := by rw [hstep]
      _ = (7 / 10) ^ (n + 1) * |c - t| := by ring

/-- C9: for any target and starting value in [0,1], fourteen applications of
`current += (target - current) * 0.3` land within 1% of the target. -/
theorem smoothing_converges_14 (c t : ℚ) (hc0 : 0 ≤ c) (hc1 : c ≤ 1)
    (ht0 : 0 ≤ t) (ht1 : t ≤ 1) : |smoothIter 14 c t - t| ≤ 1 / 100 := by
  rw [smoothIter_err]
  have h1 : |c - t| ≤ 1 := abs_le.mpr ⟨by linarith, by linarith⟩
  calc (7 / 10 : ℚ) ^ 14 * |c - t| ≤ (7 / 10) ^ 14 * 1 := by
        exact mul_le_mul_of_nonneg_left h1 (by positivity)
    _ ≤ 1 / 100 := by norm_num

/-- Witness for C9 from the extreme start c = 0, t = 1. -/
theorem smoothing_converges_14_witness :
    ((0 : ℚ) ≤ 0 ∧ (0 : ℚ) ≤ 1 ∧ (0 : ℚ) ≤ 1 ∧ (1 : ℚ) ≤ 1) ∧
      |smoothIter 14 (0 : ℚ) 1 - 1| ≤ 1 / 100 :=
  ⟨by norm_num, smoothing_converges_14 0 1 (by norm_num) (by norm_num) (by norm_num)
    (by norm_num)⟩

-- ===========================================================================
-- C5: triangular wind-gust envelope
-- ===========================================================================

/-- C5: for a gust with trough `v` drawn in [0.1,0.8] and duration `d > 0`,
the multiplier is 1 at progress 0, exactly `v` at progress 0.5, and 1 again
at progress 1 (gust expiry), falling linearly as `1 - 2p(1-v)` on [0,1/2)
and recovering linearly as `v + (2p-1)(1-v)` on [1/2,1). -/
theorem gust_envelope_triangle {K : Type*} [LinearOrderedField K] (v d : K)
    (hv1 : 1 / 10 ≤ v) (hv2 : v ≤ 8 / 10) (hd : 0 < d) :
    windMultiplier v d 0 = 1 ∧
    windMultiplier v d (d / 2) = v ∧
    windMultiplier v d d = 1 ∧
    (∀ p : K, 0 ≤ p → p < 1 / 2 → windMultiplier v d (p * d) = 1 - p * 2 * (1 - v)) ∧
    (∀ p : K, 1 / 2 ≤ p → p < 1 → windMultiplier v d (p * d) = v + (p - 1 / 2) * 2 * (1 - v)) := by
  have hdne : d ≠ 0 := ne_of_gt hd
  refine ⟨?_, ?_, ?_, ?_, ?_⟩
  · rw [windMultiplier, if_pos hd]
    simp
  · rw [windMultiplier, if_pos (by linarith)]
    have hp : d / 2 / d = 1 / 2 := by
      field_simp
      ring
    rw [hp, if_neg (lt_irrefl _)]
    ring
  · rw [windMultiplier, if_neg (lt_irrefl _)]
  · intro p hp0 hp1
    have hpd : p * d < d := by nlinarith
    rw [windMultiplier, if_pos hpd]
    have hq : p * d / d = p := by field_simp
    rw [hq, if_pos hp1]
  · intro p hp0 hp1
    have hpd : p * d < d := by nlinarith
    rw [windMultiplier, if_pos hpd]
    have hq : p * d / d = p := by field_simp
    rw [hq, if_neg (by linarith)]

/-- Witness for C5 at v = 1/2, d = 1. -/
theorem gust_envelope_triangle_witness :
    ((1 : ℚ) / 10 ≤ 1 / 2 ∧ (1 : ℚ) / 2 ≤ 8 / 10 ∧ (0 : ℚ) < 1) ∧
      windMultiplier (1 / 2 : ℚ) 1 (1 / 2) = 1 / 2 :=
  ⟨by norm_num,
    (gust_envelope_triangle (1 / 2 : ℚ) 1 (by norm_num) (by norm_num) (by norm_num)).2.1⟩

-- ===========================================================================
-- C10: intensity and target stay in [0,1] under any DMX byte sequence
-- ===========================================================================

lemma set_intensity_target_cases {K : Type*} [LinearOrderedField K]
    (b : BankState K) (r : ℕ) :
    (set_intensity b r).target_intensity = b.target_intensity ∨
      (set_intensity b r).target_intensity = (r : K) / 255 := by
  by_cases h : |(r : K) / 255 - b.target_intensity| > 2 / 100
  · right; simp [set_intensity, if_pos h]
  · left; simp [set_intensity, if_neg h]

lemma set_intensity_smooth_eq {K : Type*} [LinearOrderedField K]
    (b : BankState K) (r : ℕ) :
    (set_intensity b r).intensity
      = b.intensity + ((set_intensity b r).target_intensity - b.intensity) * (3 / 10) := by
  by_cases h : |(r : K) / 255 - b.target_intensity| > 2 / 100
  · simp [set_intensity, if_pos h]
  · simp [set_intensity, if_neg h]

lemma set_intensity_preserves_unit {K : Type*} [LinearOrderedField K]
    (b : BankState K) (r : ℕ) (hr : r ≤ 255)
    (h1 : 0 ≤ b.intensity) (h2 : b.intensity ≤ 1)
    (h3 : 0 ≤ b.target_intensity) (h4 : b.target_intensity ≤ 1) :
    0 ≤ (set_intensity b r).intensity ∧ (set_intensity b r).intensity ≤ 1 ∧
    0 ≤ (set_intensity b r).target_intensity ∧ (set_intensity b r).target_intensity ≤ 1 := by
  have h255 : (r : K) ≤ 255 := by exact_mod_cast Nat.cast_le.mpr hr
  have hr0 : (0 : K) ≤ (r : K) / 255 := by positivity
  have hr1 : (r : K) / 255 ≤ 1 := by
    rw [div_le_one (by norm_num)]; exact h255
  have ht0 : 0 ≤ (set_intensity b r).target_intensity := by
    rcases set_intensity_target_cases b r with h | h <;> rw [h]
    · exact h3
    · exact hr0
  have ht1 : (set_intensity b r).target_intensity ≤ 1 := by
    rcases set_intensity_target_cases b r with h | h <;> rw [h]
    · exact h4
    · exact hr1
  refine ⟨?_, ?_, ht0, ht1⟩ <;> rw [set_intensity_smooth_eq] <;> nlinarith

lemma bankRun_unit {K : Type*} [LinearOrderedField K] (calls : List ℕ) :
    ∀ b : BankState K, (∀ r ∈ calls, r ≤ 255) →
      0 ≤ b.intensity → b.intensity ≤ 1 →
      0 ≤ b.target_intensity → b.target_intensity ≤ 1 →
      0 ≤ (calls.foldl set_intensity b).intensity ∧
      (calls.foldl set_intensity b).intensity ≤ 1 ∧
      0 ≤ (calls.foldl set_intensity b).target_intensity ∧
      (calls.foldl set_intensity b).target_intensity ≤ 1 := by
  induction calls with
  | nil => intro b _ h1 h2 h3 h4; exact ⟨h1, h2, h3, h4⟩
  | cons r rest ih =>
    intro b hcalls h1 h2 h3 h4
    have hr : r ≤ 255 := hcalls r (List.mem_cons_self r rest)
    have hstep := set_intensity_preserves_unit b r hr h1 h2 h3 h4
    exact ih (set_intensity b r) (fun x hx => hcalls x (List.mem_cons_of_mem r hx))
      hstep.1 hstep.2.1 hstep.2.2.1 hstep.2.2.2

lemma update_master_target_cases {K : Type*} [LinearOrderedField K]
    (m : MasterState K) (r : ℕ) :
    (update_master m r).target_master_intensity = m.target_master_intensity ∨
      (update_master m r).target_master_intensity = (r : K) / 255 := by
  by_cases h : |(r : K) / 255 - m.target_master_intensity| > 2 / 100
  · right; simp [update_master, if_pos h]
  · left; simp [update_master, if_neg h]

lemma update_master_smooth_eq {K : Type*} [LinearOrderedField K]
    (m : MasterState K) (r : ℕ) :
    (update_master m r).master_intensity
      = m.master_intensity
        + ((update_master m r).target_master_intensity - m.master_intensity) * (3 / 10) := by
  by_cases h : |(r : K) / 255 - m.target_master_intensity| > 2 / 100
  · simp [update_master, if_pos h]
  · simp [update_master, if_neg h]

lemma update_master_preserves_unit {K : Type*} [LinearOrderedField K]
    (m : MasterState K) (r : ℕ) (hr : r ≤ 255)
    (h1 : 0 ≤ m.master_intensity) (h2 : m.master_intensity ≤ 1)
    (h3 : 0 ≤ m.target_master_intensity) (h4 : m.target_master_intensity ≤ 1) :
    0 ≤ (update_master m r).master_intensity ∧ (update_master m r).master_intensity ≤ 1 ∧
    0 ≤ (update_master m r).target_master_intensity ∧
    (update_master m r).target_master_intensity ≤ 1 := by
  have h255 : (r : K) ≤ 255 := by exact_mod_cast Nat.cast_le.mpr hr
  have hr0 : (0 : K) ≤ (r : K) / 255 := by positivity
  have hr1 : (r : K) / 255 ≤ 1 := by
    rw [div_le_one (by norm_num)]; exact h255
  have ht0 : 0 ≤ (update_master m r).target_master_intensity := by
    rcases update_master_target_cases m r with h | h <;> rw [h]
    · exact h3
    · exact hr0
  have ht1 : (update_master m r).target_master_intensity ≤ 1 := by
    rcases update_master_target_cases m r with h | h <;> rw [h]
    · exact h4
    · exact hr1
  refine ⟨?_, ?_, ht0, ht1⟩ <;> rw [update_master_smooth_eq] <;> nlinarith

lemma masterRun_unit {K : Type*} [LinearOrderedField K] (calls : List ℕ) :
    ∀ m : MasterState K, (∀ r ∈ calls, r ≤ 255) →
      0 ≤ m.master_intensity → m.master_intensity ≤ 1 →
      0 ≤ m.target_master_intensity → m.target_master_intensity ≤ 1 →
      0 ≤ (calls.foldl update_master m).master_intensity ∧
      (calls.foldl update_master m).master_intensity ≤ 1 ∧
      0 ≤ (calls.foldl update_master m).target_master_intensity ∧
      (calls.foldl update_master m).target_master_intensity ≤ 1 := by
  induction calls with
  | nil => intro m _ h1 h2 h3 h4; exact ⟨h1, h2, h3, h4⟩
  | cons r rest ih =>
    intro m hcalls h1 h2 h3 h4
    have hr : r ≤ 255 := hcalls r (List.mem_cons_self r rest)
    have hstep := update_master_preserves_unit m r hr h1 h2 h3 h4
    exact ih (update_master m r) (fun x hx => hcalls x (List.mem_cons_of_mem r hx))
      hstep.1 hstep.2.1 hstep.2.2.1 hstep.2.2.2

/-- C10: from the initial states (bank intensity and target 0.0, master
intensity and target 1.0), any sequence of DMX bytes in [0,255] keeps both
the smoothed value and the hysteresis target inside [0,1], for the banks and
for the master intensity alike. -/
theorem intensity_invariant_unit_interval {K : Type*} [LinearOrderedField K]
    (calls : List ℕ) (hcalls : ∀ r ∈ calls, r ≤ 255) :
    (0 ≤ (bankRun K calls).intensity ∧ (bankRun K calls).intensity ≤ 1 ∧
     0 ≤ (bankRun K calls).target_intensity ∧ (bankRun K calls).target_intensity ≤ 1) ∧
    (0 ≤ (masterRun K calls).master_intensity ∧ (masterRun K calls).master_intensity ≤ 1 ∧
     0 ≤ (masterRun K calls).target_master_intensity ∧
     (masterRun K calls).target_master_intensity ≤ 1) := by
  constructor
  · exact bankRun_unit calls (BankState.init [] []) hcalls
      (by simp [BankState.init]) (by simp [BankState.init])
      (by simp [BankState.init]) (by simp [BankState.init])
  · exact masterRun_unit calls MasterState.init hcalls
      (by simp [MasterState.init]) (by simp [MasterState.init])
      (by simp [MasterState.init]) (by simp [MasterState.init])

/-- Witness for C10 on the byte sequence [255, 0, 123]. -/
theorem intensity_invariant_unit_interval_witness :
    (∀ r ∈ [255, 0, 123], r ≤ 255) ∧ 0 ≤ (bankRun ℚ [255, 0, 123]).intensity :=
  ⟨by decide, (intensity_invariant_unit_interval (K := ℚ) [255, 0, 123] (by decide)).1.1⟩

-- ===========================================================================
-- C2: zero-intensity short-circuit of FlameBank.update
-- ===========================================================================

/-- C2 (amended): when a bank's smoothed intensity is ≤ 0, `update` returns
(0,0,0) for every owned pixel index without invoking pixel synthesis; a
single `set_intensity(0)` call (with the hysteresis passing) only decays the
intensity geometrically to 0.7 × its previous value, so it does not in
general make the very next frame all-black. -/
theorem bank_zero_intensity_all_black {K : Type*} [LinearOrderedField K] [FloorRing K]
    (sinf : K → K) (draws : ℕ → Draws K) (b : BankState K) (now : K)
    (h : b.intensity ≤ 0) :
    FlameBank.update sinf draws b now
        = (b, b.pixel_indices.map fun i => (i, ((0 : ℤ), (0 : ℤ), (0 : ℤ)))) ∧
    (2 / 100 < |b.target_intensity| →
      (set_intensity b 0).intensity = b.intensity * (7 / 10)) := by
  constructor
  · unfold FlameBank.update
    rw [if_pos h]
  · intro hT
    simp [set_intensity]
    rw [if_pos hT]
    dsimp only
    ring

/-- Witness for C2 at a concrete bank with intensity 0 and target 1/2. -/
theorem bank_zero_intensity_all_black_witness :
    (({ intensity := 0, target_intensity := 1 / 2, flicker_intensity := 1 / 2,
        color_shift := 0, sporadic_flicker := 0, pixel_indices := [3],
        pixels := [] } : BankState ℚ).intensity ≤ 0) ∧
    (FlameBank.update (fun _ => (0 : ℚ)) (fun _ => zeroDraws ℚ)
        { intensity := 0, target_intensity := 1 / 2, flicker_intensity := 1 / 2,
          color_shift := 0, sporadic_flicker := 0, pixel_indices := [3], pixels := [] } 0
        = ({ intensity := 0, target_intensity := 1 / 2, flicker_intensity := 1 / 2,
             color_shift := 0, sporadic_flicker := 0, pixel_indices := [3],
             pixels := [] },
           ([3].map fun i => (i, ((0 : ℤ), (0 : ℤ), (0 : ℤ)))))) ∧
    ((2 : ℚ) / 100 < |(1 : ℚ) / 2| →
      (set_intensity
          ({ intensity := 0, target_intensity := 1 / 2, flicker_intensity := 1 / 2,
             color_shift := 0, sporadic_flicker := 0, pixel_indices := [3],
             pixels := [] } : BankState ℚ) 0).intensity = 0 * (7 / 10)) := by
  have h := bank_zero_intensity_all_black (fun _ => (0 : ℚ)) (fun _ => zeroDraws ℚ)
    { intensity := 0, target_intensity := 1 / 2, flicker_intensity := 1 / 2,
      color_shift := 0, sporadic_flicker := 0, pixel_indices := [3], pixels := [] }
    0 (by norm_num)
  exact ⟨by norm_num, h.1, h.2⟩

-- ===========================================================================
-- pyInt range transfer
-- ===========================================================================

lemma pyInt_bounds {K : Type*} [LinearOrderedField K] [FloorRing K]
    {a b : ℤ} {x : K} (h1 : (a : K) ≤ x) (h2 : x ≤ (b : K)) :
    a ≤ pyInt x ∧ pyInt x ≤ b := by
  unfold pyInt
  split_ifs with h
  · refine ⟨Int.le_floor.mpr h1, ?_⟩
    have hc : ((⌊x⌋ : ℤ) : K) ≤ (b : K) := le_trans (Int.floor_le x) h2
    exact_mod_cast hc
  · refine ⟨?_, Int.ceil_le.mpr h2⟩
    have hc : (a : K) ≤ ((⌈x⌉ : ℤ) : K) := le_trans h1 (Int.le_ceil x)
    exact_mod_cast hc

-- ===========================================================================
-- C7: gap pixels 875–1019 are never written; their channels stay zero
-- ===========================================================================

lemma mem_bankPixelIndices {start size p : ℕ} :
    p ∈ bankPixelIndices start size ↔ start ≤ p ∧ p < start + size := by
  simp only [bankPixelIndices, List.mem_map, List.mem_range]
  constructor
  · rintro ⟨k, hk, rfl⟩
    omega
  · rintro ⟨h1, h2⟩
    exact ⟨p - start, by omega, by omega⟩

lemma bankRanges_eq :
    bankRanges = [(0, 125), (125, 125), (250, 125), (375, 125), (500, 125), (625, 125),
      (750, 125), (1020, 125), (1145, 125), (1270, 125), (1395, 150), (1545, 150),
      (1695, 150)] := by
  decide

lemma allAssignedPixels_ranges :
    ∀ p ∈ allAssignedPixels, p < 875 ∨ (1020 ≤ p ∧ p < 1845) := by
  intro p hp
  rw [allAssignedPixels, bankRanges_eq] at hp
  simp only [List.map_cons, List.map_nil, List.flatten_cons, List.flatten_nil,
    List.mem_append, List.append_nil, mem_bankPixelIndices, List.not_mem_nil,
    or_false] at hp
  omega

lemma setPixelInBuf_other (us : ℕ) (buf : ℕ → ℕ → ℤ) (p : ℕ) (rgb : ℤ × ℤ × ℤ)
    (q j : ℕ) (hj : j < 3) (hpq : p ≠ q) :
    setPixelInBuf us buf p rgb (us + universeIdx q) (channelOffset q + j)
      = buf (us + universeIdx q) (channelOffset q + j) := by
  unfold setPixelInBuf
  by_cases hu : us + universeIdx q = us + universeIdx p
  · have huniv : universeIdx p = universeIdx q := by omega
    have hmod : p % leds_per_universe ≠ q % leds_per_universe := by
      simp only [universeIdx, leds_per_universe] at huniv
      norm_num at huniv
      intro hcontra
      apply hpq
      simp only [leds_per_universe] at hcontra
      norm_num at hcontra
      omega
    have h1 : channelOffset q + j ≠ channelOffset p := by
      simp only [channelOffset, leds_per_universe] at *
      norm_num at hmod ⊢
      omega
    have h2 : channelOffset q + j ≠ channelOffset p + 1 := by
      simp only [channelOffset, leds_per_universe] at *
      norm_num at hmod ⊢
      omega
    have h3 : channelOffset q + j ≠ channelOffset p + 2 := by
      simp only [channelOffset, leds_per_universe] at *
      norm_num at hmod ⊢
      omega
    rw [if_pos hu, if_neg h1, if_neg h2, if_neg h3]
  · rw [if_neg hu]

lemma render_untouched (us q j : ℕ) (hj : j < 3) :
    ∀ (writes : List (ℕ × (ℤ × ℤ × ℤ))) (buf : ℕ → ℕ → ℤ),
      (∀ pw ∈ writes, pw.1 ≠ q) →
      (writes.foldl (fun b pw => setPixelInBuf us b pw.1 pw.2) buf)
          (us + universeIdx q) (channelOffset q + j)
        = buf (us + universeIdx q) (channelOffset q + j) := by
  intro writes
  induction writes with
  | nil => intro buf _; rfl
  | cons w rest ih =>
    intro buf hw
    simp only [List.foldl_cons]
    rw [ih _ (fun x hx => hw x (List.mem_cons_of_mem w hx))]
    exact setPixelInBuf_other us buf w.1 w.2 q j hj (hw w (List.mem_cons_self w rest))

/-- C7: in the dual-WLED topology (banks built by the `__init__` loop with
the jump over pixels 875–1019), a rendered frame leaves all three channel
bytes of every gap pixel at zero, whatever colors the banks produce: the
buffers start zeroed and no write ever lands on a gap pixel's channels. -/
theorem gap_channels_zero (colors : ℕ → ℤ × ℤ × ℤ) (us q : ℕ)
    (hq1 : 875 ≤ q) (hq2 : q ≤ 1019) (j : ℕ) (hj : j < 3) :
    render_frame us (allAssignedPixels.map fun p => (p, colors p))
      (us + universeIdx q) (channelOffset q + j) = 0 := by
  have hw : ∀ pw ∈ allAssignedPixels.map (fun p => (p, colors p)), pw.1 ≠ q := by
    intro pw hpw
    simp only [List.mem_map] at hpw
    obtain ⟨p, hp, rfl⟩ := hpw
    have := allAssignedPixels_ranges p hp
    simp only
    omega
  unfold render_frame
  rw [render_untouched us q j hj _ _ hw]

/-- Witness for C7: gap pixel 900, red byte, all pixels colored full white. -/
theorem gap_channels_zero_witness :
    ((875 : ℕ) ≤ 900 ∧ (900 : ℕ) ≤ 1019 ∧ (0 : ℕ) < 3) ∧
      render_frame 1 (allAssignedPixels.map fun p => (p, ((255 : ℤ), 255, 255)))
        (1 + universeIdx 900) (channelOffset 900 + 0) = 0 :=
  ⟨by norm_num,
    gap_channels_zero (fun _ => ((255 : ℤ), 255, 255)) 1 900 (by norm_num) (by norm_num)
      0 (by norm_num)⟩

-- ===========================================================================
-- C3: what is elapsed-time driven and what is call-count driven
-- ===========================================================================

lemma transition_step_preserves (d : Draws K) (st : PixelState K) (now : K) :
    (transition_step d st now).intensity_phase = st.intensity_phase ∧
    (transition_step d st now).intensity_speed = st.intensity_speed ∧
    (transition_step d st now).sporadic_flicker = st.sporadic_flicker ∧
    (transition_step d st now).base_intensity = st.base_intensity ∧
    (transition_step d st now).wind_gust_active = st.wind_gust_active ∧
    (transition_step d st now).wind_gust_intensity = st.wind_gust_intensity ∧
    (transition_step d st now).wind_gust_start_time = st.wind_gust_start_time ∧
    (transition_step d st now).wind_gust_duration = st.wind_gust_duration := by
  unfold transition_step
  split_ifs <;> simp

lemma gust_step_phase (d : Draws K) (st : PixelState K) (now : K) :
    (gust_step d st now).1.intensity_phase = st.intensity_phase := by
  unfold gust_step
  dsimp only
  split_ifs <;> rfl

lemma update_phase_per_call (sinf : K → K) (d : Draws K) (st : PixelState K) (now : K) :
    (SmoothFirePixel.update sinf d st now).1.intensity_phase
      = st.intensity_phase + st.intensity_speed * (1 / 100) := by
  show (gust_step d _ now).1.intensity_phase = _
  rw [gust_step_phase]
  simp [(transition_step_preserves d st now).1, (transition_step_preserves d st now).2.1]

lemma transition_step_shift (d : Draws K) (st : PixelState K) (now dlt : K) :
    transition_step d (shiftTimes st dlt) (now + dlt)
      = shiftTimes (transition_step d st now) dlt := by
  unfold transition_step shiftTimes
  have he : now + dlt - (st.transition_start_time + dlt) = now - st.transition_start_time := by
    ring
  simp only [he]
  split_ifs <;> simp

lemma gust_step_shift (d : Draws K) (st : PixelState K) (now dlt : K) :
    gust_step d (shiftTimes st dlt) (now + dlt)
      = (shiftTimes (gust_step d st now).1 dlt, (gust_step d st now).2) := by
  unfold gust_step shiftTimes
  have he : now + dlt - (st.wind_gust_start_time + dlt) = now - st.wind_gust_start_time := by
    ring
  simp only [he, sub_self]
  split_ifs <;> (try simp_all) <;> (try linarith)

lemma gust_step_off (d : Draws K) (y : PixelState K) (now : K)
    (hsp : ¬ (y.sporadic_flicker > (1 : K) / 100)) : gust_step d y now = (y, 1) := by
  unfold gust_step
  rw [if_neg hsp]

lemma update_quiet (sinf : K → K) (d : Draws K) (st : PixelState K) (now : K)
    (hexp : ¬ (now - st.transition_start_time ≥ st.transition_duration))
    (hsp : ¬ (st.sporadic_flicker > (1 : K) / 100)) :
    SmoothFirePixel.update sinf d st now =
      ({ st with intensity_phase := st.intensity_phase + st.intensity_speed * (1 / 100) },
       scaleColor (lerp_color st.current_color st.target_color (smoothProg st now))
         (oscFactor sinf st)) := by
  have h1 : transition_step d st now = st := by
    unfold transition_step
    rw [if_neg hexp]
  have h2 := gust_step_off d
    ({ st with intensity_phase := st.intensity_phase + st.intensity_speed * (1 / 100) })
    now hsp
  unfold SmoothFirePixel.update
  rw [h1]
  simp only [h2, smoothProg, oscFactor, mul_one]

lemma update_quiet_shift (sinf : K → K) (d : Draws K) (st : PixelState K) (now dlt : K)
    (hexp : ¬ (now - st.transition_start_time ≥ st.transition_duration))
    (hsp : ¬ (st.sporadic_flicker > (1 : K) / 100)) :
    SmoothFirePixel.update sinf d (shiftTimes st dlt) (now + dlt)
      = (shiftTimes (SmoothFirePixel.update sinf d st now).1 dlt,
         (SmoothFirePixel.update sinf d st now).2) := by
  have hexp2 : ¬ (now + dlt - (shiftTimes st dlt).transition_start_time
      ≥ (shiftTimes st dlt).transition_duration) := by
    have he : now + dlt - (st.transition_start_time + dlt) = now - st.transition_start_time := by
      ring
    simpa [shiftTimes, he] using hexp
  have hsm : smoothProg (shiftTimes st dlt) (now + dlt) = smoothProg st now := by
    have he : now + dlt - (st.transition_start_time + dlt) = now - st.transition_start_time := by
      ring
    simp [smoothProg, shiftTimes, he]
  rw [update_quiet sinf d (shiftTimes st dlt) (now + dlt) hexp2 hsp,
    update_quiet sinf d st now hexp hsp, hsm]
  rfl

/-- C3 (amended): the color-transition cycle and the wind-gust cycle are
driven by elapsed wall-clock time — shifting all stored timestamps together
with the evaluation instant leaves them unchanged, and the same holds for
the whole update on a frame with no transition expiry and gusts disabled —
but the intensity-oscillation phase advances by `intensity_speed × 0.01` on
every `update` call regardless of the time argument, so the oscillation (and
hence the pixel output) depends on the number of calls, not only on the
evaluation instant: the code is not frame-rate independent. -/
theorem pixel_cycles_elapsed_vs_calls (sinf : K → K) (d : Draws K) (st : PixelState K)
    (now dlt : K) :
    ((SmoothFirePixel.update sinf d st now).1.intensity_phase
        = st.intensity_phase + st.intensity_speed * (1 / 100)) ∧
    (transition_step d (shiftTimes st dlt) (now + dlt)
        = shiftTimes (transition_step d st now) dlt) ∧
    (gust_step d (shiftTimes st dlt) (now + dlt)
        = (shiftTimes (gust_step d st now).1 dlt, (gust_step d st now).2)) ∧
    (¬ (now - st.transition_start_time ≥ st.transition_duration) →
      ¬ (st.sporadic_flicker > (1 : K) / 100) →
      SmoothFirePixel.update sinf d (shiftTimes st dlt) (now + dlt)
        = (shiftTimes (SmoothFirePixel.update sinf d st now).1 dlt,
           (SmoothFirePixel.update sinf d st now).2)) :=
  ⟨update_phase_per_call sinf d st now, transition_step_shift d st now dlt,
    gust_step_shift d st now dlt,
    fun hexp hsp => update_quiet_shift sinf d st now dlt hexp hsp⟩

/-- Witness for C3 (amended) at a concrete quiet state over ℚ. -/
theorem pixel_cycles_elapsed_vs_calls_witness :
    (¬ ((1 : ℚ) / 2 - (pxCp ℚ 0).transition_start_time ≥ (pxCp ℚ 0).transition_duration) ∧
     ¬ ((pxCp ℚ 0).sporadic_flicker > (1 : ℚ) / 100)) ∧
    (SmoothFirePixel.update (fun _ => 0) (zeroDraws ℚ) (pxCp ℚ 0) (1 / 2)).1.intensity_phase
        = (pxCp ℚ 0).intensity_phase + (pxCp ℚ 0).intensity_speed * (1 / 100) ∧
    SmoothFirePixel.update (fun _ => 0) (zeroDraws ℚ) (shiftTimes (pxCp ℚ 0) 7) (1 / 2 + 7)
        = (shiftTimes (SmoothFirePixel.update (fun _ => 0) (zeroDraws ℚ) (pxCp ℚ 0) (1 / 2)).1 7,
           (SmoothFirePixel.update (fun _ => 0) (zeroDraws ℚ) (pxCp ℚ 0) (1 / 2)).2) := by
  have h := pixel_cycles_elapsed_vs_calls (fun _ => (0 : ℚ)) (zeroDraws ℚ) (pxCp ℚ 0)
    (1 / 2) 7
  exact ⟨⟨by norm_num [pxCp], by norm_num [pxCp]⟩, h.1,
    h.2.2.2 (by norm_num [pxCp]) (by norm_num [pxCp])⟩

-- ===========================================================================
-- C8: every produced RGB triple has integer channels in [0, 255]
-- ===========================================================================

lemma pyInt_intCast (a : ℤ) : pyInt ((a : K)) = a := by
  unfold pyInt
  split_ifs <;> simp

lemma convex_bound (lo hi a b tc : K) (ha : lo ≤ a) (ha2 : a ≤ hi)
    (hb : lo ≤ b) (hb2 : b ≤ hi) (ht0 : 0 ≤ tc) (ht1 : tc ≤ 1) :
    lo ≤ a + (b - a) * tc ∧ a + (b - a) * tc ≤ hi := by
  constructor
  · nlinarith [mul_nonneg (by linarith : (0 : K) ≤ a - lo) (by linarith : (0 : K) ≤ 1 - tc),
      mul_nonneg (by linarith : (0 : K) ≤ b - lo) ht0]
  · nlinarith [mul_nonneg (by linarith : (0 : K) ≤ hi - a) (by linarith : (0 : K) ≤ 1 - tc),
      mul_nonneg (by linarith : (0 : K) ≤ hi - b) ht0]

lemma lerp_channel_mem (a b : ℤ) (tc : K) (ha0 : 0 ≤ a) (ha1 : a ≤ 255)
    (hb0 : 0 ≤ b) (hb1 : b ≤ 255) (ht0 : 0 ≤ tc) (ht1 : tc ≤ 1) :
    0 ≤ pyInt ((a : K) + ((b - a : ℤ) : K) * tc) ∧
    pyInt ((a : K) + ((b - a : ℤ) : K) * tc) ≤ 255 := by
  have hx : ((b - a : ℤ) : K) = (b : K) - (a : K) := by push_cast; ring
  rw [hx]
  have hcb := convex_bound (0 : K) 255 (a : K) (b : K) tc
    (by exact_mod_cast ha0) (by exact_mod_cast ha1)
    (by exact_mod_cast hb0) (by exact_mod_cast hb1) ht0 ht1
  refine pyInt_bounds ?_ ?_
  · push_cast
    linarith [hcb.1]
  · push_cast
    linarith [hcb.2]

lemma lerp_color_mem (c1 c2 : ℤ × ℤ × ℤ) (t : K)
    (h1 : colorInRange c1) (h2 : colorInRange c2) :
    colorInRange (lerp_color c1 c2 t (K := K)) := by
  obtain ⟨h1a, h1b, h1c, h1d, h1e, h1f⟩ := h1
  obtain ⟨h2a, h2b, h2c, h2d, h2e, h2f⟩ := h2
  have ht0 : (0 : K) ≤ max 0 (min 1 t) := le_max_left 0 _
  have ht1 : max 0 (min 1 t) ≤ 1 := max_le (by norm_num) (min_le_left 1 t)
  have hr := lerp_channel_mem c1.1 c2.1 (max 0 (min 1 t)) h1a h1b h2a h2b ht0 ht1
  have hg := lerp_channel_mem c1.2.1 c2.2.1 (max 0 (min 1 t)) h1c h1d h2c h2d ht0 ht1
  have hb := lerp_channel_mem c1.2.2 c2.2.2 (max 0 (min 1 t)) h1e h1f h2e h2f ht0 ht1
  exact ⟨hr.1, hr.2, hg.1, hg.2, hb.1, hb.2⟩

lemma generate_fire_color_mem (d : Draws K) (cs : K)
    (hred1 : 245 ≤ d.redDraw) (hred2 : d.redDraw ≤ 255)
    (hu1 : 0 ≤ d.colorIntensityU) (hu2 : d.colorIntensityU ≤ 1) :
    colorInRange (generate_fire_color d cs) := by
  unfold generate_fire_color
  split_ifs with h1 h2
  · exact ⟨by norm_num, by norm_num, by norm_num, by norm_num, by norm_num, by norm_num⟩
  · exact ⟨by norm_num, by norm_num, by norm_num, by norm_num, by norm_num, by norm_num⟩
  · have hint1 : (6 : K) / 10 ≤ pyUniform (6 / 10) 1 d.colorIntensityU := by
      unfold pyUniform
      nlinarith
    have hint2 : pyUniform ((6 : K) / 10) 1 d.colorIntensityU ≤ 1 := by
      unfold pyUniform
      nlinarith
    have hg1 : (50 : K) ≤ max 50 (min 200 (127 + d.greenGauss + -((cs - 1 / 2) * 2) * 60)) :=
      le_max_left 50 _
    have hg2 : max (50 : K) (min 200 (127 + d.greenGauss + -((cs - 1 / 2) * 2) * 60)) ≤ 200 :=
      max_le (by norm_num) (min_le_left _ _)
    have hgreen := pyInt_bounds (a := 0) (b := 255)
      (x := max (50 : K) (min 200 (127 + d.greenGauss + -((cs - 1 / 2) * 2) * 60))
            * pyUniform (6 / 10) 1 d.colorIntensityU)
      (by push_cast; nlinarith) (by push_cast; nlinarith)
    dsimp only
    refine ⟨by omega, by omega, hgreen.1, hgreen.2, ?_, ?_⟩
    · exact le_max_left 0 _
    · exact le_trans (max_le (by norm_num) (min_le_left _ _)) (by norm_num)

lemma scaleColor_mem (c : ℤ × ℤ × ℤ) (m : K) (hc : colorInRange c)
    (hm0 : 0 ≤ m) (hm1 : m ≤ 1) : colorInRange (scaleColor c m) := by
  obtain ⟨ha, hb, hcc, hd, he, hf⟩ := hc
  unfold scaleColor
  have key : ∀ a : ℤ, 0 ≤ a → a ≤ 255 →
      0 ≤ pyInt ((a : K) * m) ∧ pyInt ((a : K) * m) ≤ 255 := by
    intro a h0 h255
    have h0K : (0 : K) ≤ (a : K) := by exact_mod_cast h0
    have h255K : (a : K) ≤ 255 := by exact_mod_cast h255
    refine pyInt_bounds ?_ ?_
    · push_cast
      nlinarith
    · push_cast
      nlinarith
  exact ⟨(key c.1 ha hb).1, (key c.1 ha hb).2, (key c.2.1 hcc hd).1, (key c.2.1 hcc hd).2,
    (key c.2.2 he hf).1, (key c.2.2 he hf).2⟩

lemma transition_step_colors (d : Draws K) (st : PixelState K) (now : K)
    (hcur : colorInRange st.current_color) (htar : colorInRange st.target_color)
    (hred1 : 245 ≤ d.redDraw) (hred2 : d.redDraw ≤ 255)
    (hu1 : 0 ≤ d.colorIntensityU) (hu2 : d.colorIntensityU ≤ 1) :
    colorInRange (transition_step d st now).current_color ∧
    colorInRange (transition_step d st now).target_color := by
  unfold transition_step
  by_cases h : now - st.transition_start_time ≥ st.transition_duration
  · rw [if_pos h]
    exact ⟨htar, generate_fire_color_mem d st.color_shift hred1 hred2 hu1 hu2⟩
  · rw [if_neg h]
    exact ⟨hcur, htar⟩

lemma windMultiplier_zero (v dur : K) : windMultiplier v dur 0 = 1 := by
  unfold windMultiplier
  by_cases h1 : (0 : K) < dur
  · rw [if_pos h1]
    dsimp only
    rw [zero_div, if_pos (by norm_num : (0 : K) < 1 / 2)]
    ring
  · rw [if_neg h1]

lemma windMultiplier_mem (v dur e : K) (he : 0 ≤ e) (hv0 : 0 ≤ v) (hv1 : v ≤ 1) :
    0 ≤ windMultiplier v dur e ∧ windMultiplier v dur e ≤ 1 := by
  unfold windMultiplier
  by_cases h1 : e < dur
  · rw [if_pos h1]
    dsimp only
    have hdur : 0 < dur := lt_of_le_of_lt he h1
    have hp0 : 0 ≤ e / dur := div_nonneg he (le_of_lt hdur)
    have hp1 : e / dur < 1 := (div_lt_one hdur).mpr h1
    by_cases h2 : e / dur < 1 / 2
    · rw [if_pos h2]
      constructor
      · nlinarith [mul_nonneg (by linarith : (0 : K) ≤ 1 - 2 * (e / dur))
          (by linarith : (0 : K) ≤ 1 - v)]
      · nlinarith [mul_nonneg hp0 (by linarith : (0 : K) ≤ 1 - v)]
    · rw [if_neg h2]
      constructor
      · nlinarith [mul_nonneg (by linarith : (0 : K) ≤ e / dur - 1 / 2)
          (by linarith : (0 : K) ≤ 1 - v)]
      · nlinarith [mul_nonneg (by linarith : (0 : K) ≤ 1 - e / dur)
          (by linarith : (0 : K) ≤ 1 - v)]
  · rw [if_neg h1]
    norm_num

lemma gust_step_mult_mem (d : Draws K) (st2 : PixelState K) (now : K)
    (hgust : st2.wind_gust_active = true →
      0 ≤ st2.wind_gust_intensity ∧ st2.wind_gust_intensity ≤ 1 ∧
      st2.wind_gust_start_time ≤ now) :
    0 ≤ (gust_step d st2 now).2 ∧ (gust_step d st2 now).2 ≤ 1 := by
  by_cases hsp : st2.sporadic_flicker > (1 : K) / 100
  · unfold gust_step
    rw [if_pos hsp]
    by_cases hact : st2.wind_gust_active = true
    · rw [if_neg (not_not_intro hact), if_pos hact]
      by_cases hdur : now - st2.wind_gust_start_time < st2.wind_gust_duration
      · rw [if_pos hdur]
        exact windMultiplier_mem st2.wind_gust_intensity st2.wind_gust_duration
          (now - st2.wind_gust_start_time) (by linarith [(hgust hact).2.2])
          (hgust hact).1 (hgust hact).2.1
      · rw [if_neg hdur]
        norm_num
    · rw [if_pos hact]
      by_cases htrig : d.gustRoll < st2.sporadic_flicker * (5 / 100)
      · rw [if_pos htrig]
        simp only [sub_self, windMultiplier_zero]
        split_ifs <;> norm_num
      · rw [if_neg htrig, if_neg hact]
        norm_num
  · rw [gust_step_off d st2 now hsp]
    norm_num

set_option maxHeartbeats 1000000 in
/-- C8: with `math.sin` ranging in [-1,1], the random draws in their
documented ranges, colors already in range, base intensity in [0,1], an
active gust (if any) with trough in [0.1,0.8] started no later than now, and
`current_time` at or after the transition start, `SmoothFirePixel.update`
returns a triple of integers each in [0, 255]: the interpolation clamps its
progress, and the oscillation and gust multipliers lie in [0, 1]. -/
theorem pixel_output_in_range (sinf : K → K) (hsin : SinBound sinf) (d : Draws K)
    (st : PixelState K) (now : K)
    (hcur : colorInRange st.current_color) (htar : colorInRange st.target_color)
    (hb0 : 0 ≤ st.base_intensity) (hb1 : st.base_intensity ≤ 1)
    (hred1 : 245 ≤ d.redDraw) (hred2 : d.redDraw ≤ 255)
    (hu1 : 0 ≤ d.colorIntensityU) (hu2 : d.colorIntensityU ≤ 1)
    (hgust : st.wind_gust_active = true →
      1 / 10 ≤ st.wind_gust_intensity ∧ st.wind_gust_intensity ≤ 8 / 10 ∧
      st.wind_gust_start_time ≤ now)
    (hnow : st.transition_start_time ≤ now) :
    colorInRange (SmoothFirePixel.update sinf d st now).2 := by
  have tp := transition_step_preserves d st now
  have hcols := transition_step_colors d st now hcur htar hred1 hred2 hu1 hu2
  set st1 := transition_step d st now with hst1
  have hs := hsin (st1.intensity_phase + st1.intensity_speed * (1 / 100))
  have hosc0 : (0 : K) ≤ 6 / 10
      + 4 / 10 * ((sinf (st1.intensity_phase + st1.intensity_speed * (1 / 100)) + 1) / 2) := by
    nlinarith [hs.1, hs.2]
  have hosc1 : 6 / 10
      + 4 / 10 * ((sinf (st1.intensity_phase + st1.intensity_speed * (1 / 100)) + 1) / 2)
      ≤ (1 : K) := by
    nlinarith [hs.1, hs.2]
  have hgust2 : ({ st1 with intensity_phase := st1.intensity_phase
        + st1.intensity_speed * (1 / 100) } : PixelState K).wind_gust_active = true →
      0 ≤ ({ st1 with intensity_phase := st1.intensity_phase
        + st1.intensity_speed * (1 / 100) } : PixelState K).wind_gust_intensity ∧
      ({ st1 with intensity_phase := st1.intensity_phase
        + st1.intensity_speed * (1 / 100) } : PixelState K).wind_gust_intensity ≤ 1 ∧
      ({ st1 with intensity_phase := st1.intensity_phase
        + st1.intensity_speed * (1 / 100) } : PixelState K).wind_gust_start_time ≤ now := by
    intro hact
    have hact2 : st.wind_gust_active = true := by
      rw [← tp.2.2.2.2.1]
      exact hact
    have hg := hgust hact2
    refine ⟨?_, ?_, ?_⟩
    · show 0 ≤ st1.wind_gust_intensity
      rw [tp.2.2.2.2.2.1]
      linarith [hg.1]
    · show st1.wind_gust_intensity ≤ 1
      rw [tp.2.2.2.2.2.1]
      linarith [hg.2.1]
    · show st1.wind_gust_start_time ≤ now
      rw [tp.2.2.2.2.2.2.1]
      exact hg.2.2
  have hmul := gust_step_mult_mem d
    ({ st1 with intensity_phase := st1.intensity_phase + st1.intensity_speed * (1 / 100) })
    now hgust2
  have hbase0 : 0 ≤ st1.base_intensity := by
    rw [tp.2.2.2.1]
    exact hb0
  have hbase1 : st1.base_intensity ≤ 1 := by
    rw [tp.2.2.2.1]
    exact hb1
  simp only [SmoothFirePixel.update]
  rw [← hst1]
  apply scaleColor_mem
  · exact lerp_color_mem _ _ _ hcols.1 hcols.2
  · exact mul_nonneg (mul_nonneg hbase0 hosc0) hmul.1
  · have h1 : st1.base_intensity
        * (6 / 10 + 4 / 10 * ((sinf (st1.intensity_phase
            + st1.intensity_speed * (1 / 100)) + 1) / 2)) ≤ 1 := by
      nlinarith
    nlinarith [hmul.1, hmul.2, mul_nonneg hbase0 hosc0]

/-- Witness for C8 at a concrete quiet state over ℚ with sin stubbed at 0. -/
theorem pixel_output_in_range_witness :
    (SinBound (fun _ : ℚ => 0) ∧ colorInRange (pxCp ℚ 0).current_color ∧
      (0 : ℚ) ≤ (pxCp ℚ 0).base_intensity ∧ (pxCp ℚ 0).base_intensity ≤ 1 ∧
      (245 : ℤ) ≤ 250 ∧ (pxCp ℚ 0).transition_start_time ≤ 1 / 2) ∧
    colorInRange (SmoothFirePixel.update (fun _ : ℚ => 0)
      { zeroDraws ℚ with redDraw := 250 } (pxCp ℚ 0) (1 / 2)).2 := by
  have h := pixel_output_in_range (fun _ : ℚ => 0)
    (fun _ => by norm_num) ({ zeroDraws ℚ with redDraw := 250 }) (pxCp ℚ 0) (1 / 2)
    (by norm_num [pxCp, colorInRange]) (by norm_num [pxCp, colorInRange])
    (by norm_num [pxCp]) (by norm_num [pxCp])
    (by norm_num [zeroDraws]) (by norm_num [zeroDraws])
    (by norm_num [zeroDraws]) (by norm_num [zeroDraws])
    (by intro hact; simp [pxCp] at hact) (by norm_num [pxCp])
  exact ⟨⟨fun _ => by norm_num, by norm_num [pxCp, colorInRange],
    by norm_num [pxCp], by norm_num [pxCp], by norm_num, by norm_num [pxCp]⟩, h⟩

-- ===========================================================================
-- Real-sine evaluation of the constant-color pixel state
-- ===========================================================================

lemma sin_bounds_001 : 0 < Real.sin (1 / 100) ∧ Real.sin (1 / 100) < 1 / 100 :=
  ⟨Real.sin_pos_of_pos_of_lt_pi (by norm_num) (by linarith [Real.pi_gt_three]),
   Real.sin_lt (by norm_num)⟩

lemma sin_bounds_002 : (9999 : ℝ) / 500000 < Real.sin (1 / 50) ∧ Real.sin (1 / 50) < 1 / 50 := by
  constructor
  · have h := Real.sin_gt_sub_cube (by norm_num : (0 : ℝ) < 1 / 50)
      (by norm_num : (1 : ℝ) / 50 ≤ 1)
    calc (9999 : ℝ) / 500000 = 1 / 50 - (1 / 50) ^ 3 / 4 := by norm_num
      _ < Real.sin (1 / 50) := h
  · exact Real.sin_lt (by norm_num)

lemma lerp_color_self (c : ℤ × ℤ × ℤ) (t : K) : lerp_color c c t = c := by
  unfold lerp_color
  simp [sub_self, pyInt_intCast]

lemma update_pxCp_eval (phi now : ℝ) (h0 : 0 ≤ now) (h1 : now < 1) :
    SmoothFirePixel.update Real.sin (zeroDraws ℝ) (pxCp ℝ phi) now
      = (pxCp ℝ (phi + 1 / 100),
         scaleColor ((255 : ℤ), 180, 20)
           (16 / 25 + 4 / 25 * Real.sin (phi + 1 / 100))) := by
  rw [update_quiet Real.sin (zeroDraws ℝ) (pxCp ℝ phi) now
    (by simp only [pxCp]; simp; linarith) (by norm_num [pxCp])]
  congr 1
  · simp [pxCp]
  · rw [show (pxCp ℝ phi).current_color = ((255 : ℤ), 180, 20) from rfl,
      show (pxCp ℝ phi).target_color = ((255 : ℤ), 180, 20) from rfl,
      lerp_color_self]
    congr 1
    simp only [oscFactor, pxCp]
    norm_num
    ring

lemma red163 : pyInt (((255 : ℤ) : ℝ) * (16 / 25 + 4 / 25 * Real.sin (1 / 100))) = 163 := by
  have hs := sin_bounds_001
  rw [pyInt, if_pos (by push_cast; nlinarith [hs.1])]
  rw [Int.floor_eq_iff]
  constructor
  · push_cast
    nlinarith [hs.1]
  · push_cast
    nlinarith [hs.2]

lemma red164 : pyInt (((255 : ℤ) : ℝ) * (16 / 25 + 4 / 25 * Real.sin (1 / 50))) = 164 := by
  have hs := sin_bounds_002
  rw [pyInt, if_pos (by push_cast; nlinarith [hs.1])]
  rw [Int.floor_eq_iff]
  constructor
  · push_cast
    nlinarith [hs.1]
  · push_cast
    nlinarith [hs.2]

/-- Counterexample to C3 as stated: the same pixel state evaluated at the
same wall-clock instant 0.5 s gives different output depending on whether an
intermediate `update` call happened at 0.25 s — the oscillation phase
advances per call, not per elapsed second, so the output is not frame-rate
independent. -/
theorem framerate_dependence_counterexample :
    (SmoothFirePixel.update Real.sin (zeroDraws ℝ) (pxCp ℝ 0) (1 / 2)).2
      ≠ (SmoothFirePixel.update Real.sin (zeroDraws ℝ)
          ((SmoothFirePixel.update Real.sin (zeroDraws ℝ) (pxCp ℝ 0) (1 / 4)).1) (1 / 2)).2 := by
  rw [update_pxCp_eval 0 (1 / 2) (by norm_num) (by norm_num),
    update_pxCp_eval 0 (1 / 4) (by norm_num) (by norm_num)]
  rw [show ((pxCp ℝ (0 + 1 / 100),
      scaleColor ((255 : ℤ), 180, 20) (16 / 25 + 4 / 25 * Real.sin (0 + 1 / 100))).1)
    = pxCp ℝ (0 + 1 / 100) from rfl]
  rw [update_pxCp_eval (0 + 1 / 100) (1 / 2) (by norm_num) (by norm_num)]
  rw [show (0 : ℝ) + 1 / 100 = 1 / 100 from by norm_num,
    show (1 : ℝ) / 100 + 1 / 100 = 1 / 50 from by norm_num]
  intro hcontra
  have hred := congrArg (fun c : ℤ × ℤ × ℤ => c.1) hcontra
  dsimp only [scaleColor] at hred
  rw [red163, red164] at hred
  exact absurd hred (by norm_num)

/-- Counterexample to C2 as stated: starting from the initial bank (one
pixel, index 0), `set_intensity 255` then `set_intensity 0` leaves the
smoothed intensity at 0.21 > 0, so the very next `update` does not
short-circuit: it synthesizes the pixel and emits a non-black color. -/
theorem bank_set_zero_not_black_counterexample :
    (FlameBank.update Real.sin (fun _ => zeroDraws ℝ)
        (set_intensity (set_intensity (BankState.init [0] [(0, pxCp ℝ 0)]) 255) 0)
        (1 / 2)).2
      ≠ [(0, ((0 : ℤ), (0 : ℤ), (0 : ℤ)))] := by
  have hb1 : set_intensity (BankState.init [0] [(0, pxCp ℝ 0)]) 255
      = { intensity := 3 / 10, target_intensity := 1, flicker_intensity := 1 / 2,
          color_shift := 0, sporadic_flicker := 0, pixel_indices := [0],
          pixels := [(0, pxCp ℝ 0)] } := by
    have hcond : |((255 : ℕ) : ℝ) / 255
        - (BankState.init [0] [(0, pxCp ℝ 0)] : BankState ℝ).target_intensity| > 2 / 100 := by
      norm_num [BankState.init]
    simp [set_intensity, if_pos hcond, BankState.init]
    norm_num
  have hb2 : set_intensity
      ({ intensity := 3 / 10, target_intensity := 1, flicker_intensity := 1 / 2,
         color_shift := 0, sporadic_flicker := 0, pixel_indices := [0],
         pixels := [(0, pxCp ℝ 0)] } : BankState ℝ) 0
      = { intensity := 21 / 100, target_intensity := 0, flicker_intensity := 1 / 2,
          color_shift := 0, sporadic_flicker := 0, pixel_indices := [0],
          pixels := [(0, pxCp ℝ 0)] } := by
    have hcond : |((0 : ℕ) : ℝ) / 255
        - ({ intensity := 3 / 10, target_intensity := 1, flicker_intensity := 1 / 2,
             color_shift := 0, sporadic_flicker := 0, pixel_indices := [0],
             pixels := [(0, pxCp ℝ 0)] } : BankState ℝ).target_intensity| > 2 / 100 := by
      norm_num
    simp [set_intensity, if_pos hcond]
    norm_num
  rw [hb1, hb2]
  have hneg : ¬ ((⟨21 / 100, 0, 1 / 2, 0, 0, [0], [(0, pxCp ℝ 0)]⟩
      : BankState ℝ).intensity ≤ 0) := by
    norm_num
  unfold FlameBank.update
  rw [if_neg hneg]
  dsimp only [List.map_cons, List.map_nil]
  have hps : ({ flicker_intensity := (1 : ℝ) / 2, color_shift := 0, sporadic_flicker := 0,
                current_color := (pxCp ℝ 0).current_color,
                target_color := (pxCp ℝ 0).target_color,
                transition_start_time := (pxCp ℝ 0).transition_start_time,
                transition_duration := (pxCp ℝ 0).transition_duration,
                base_intensity := (pxCp ℝ 0).base_intensity,
                intensity_phase := (pxCp ℝ 0).intensity_phase,
                intensity_speed := (pxCp ℝ 0).intensity_speed,
                wind_gust_active := (pxCp ℝ 0).wind_gust_active,
                wind_gust_intensity := (pxCp ℝ 0).wind_gust_intensity,
                wind_gust_start_time := (pxCp ℝ 0).wind_gust_start_time,
                wind_gust_duration := (pxCp ℝ 0).wind_gust_duration } : PixelState ℝ)
      = pxCp ℝ 0 := rfl
  rw [hps, update_pxCp_eval 0 (1 / 2) (by norm_num) (by norm_num),
    show (0 : ℝ) + 1 / 100 = 1 / 100 from by norm_num]
  intro hcontra
  have hhead := congrArg (fun l : List (ℕ × (ℤ × ℤ × ℤ)) => (l.headD (0, (0, 0, 0))).2.1) hcontra
  dsimp only [scaleColor, List.headD] at hhead
  rw [red163] at hhead
  have h34 : pyInt (((163 : ℤ) : ℝ) * (21 / 100)) = 34 := by
    rw [pyInt, if_pos (by push_cast; norm_num)]
    rw [Int.floor_eq_iff]
    constructor
    · push_cast
      norm_num
    · push_cast
      norm_num
  rw [h34] at hhead
  exact absurd hhead (by norm_num)
